import Mathlib

/-!
Verification of the pymsio in-memory columnar peak store
(`pymsio/readers/ms_data.py`, `pymsio/readers/utils.py`).

Modelling conventions (shallow embedding):
* 1-D numpy float32 arrays become `List ℝ` (float32 values idealised as
  real numbers); unsigned integer arrays become `List ℕ`.
* The polars metadata table becomes a list of row structures.
* Fallible numpy/polars operations (out-of-bounds indexing, concatenating
  an empty list of arrays) return `Option` / `Except`.
* In-place buffer writes are modelled by explicit state passing: the
  statistics kernel threads the output buffer as a function `ℕ → ℝ` and
  materialises it at the end; the pre-allocate-then-fill loop of
  `collect_peaks` is modelled by concatenating the written blocks, which
  is its net effect since the fill offsets advance by exactly the length
  of each written block starting from 0.
-/

namespace PyMS

/-- `PeakArray`: pair of contiguous 1-D float32 arrays `(mz, ab)`. -/
structure PeakArray where
  mz : List ℝ
  ab : List ℝ

/-- `PeakArray.__len__`: `self.mz.shape[0]`. -/
def PeakArray.len (p : PeakArray) : ℕ := p.mz.length

/-- One producer metadata row, with the seven `META_SCHEMA` columns:
`frame_num` (u32), `mz_lo`, `mz_hi`, `time_in_seconds` (f32), `ms_level`
(u8), `isolation_min_mz`, `isolation_max_mz` (nullable f32). -/
structure ScanMetaBase where
  frame_num : ℕ
  mz_lo : ℝ
  mz_hi : ℝ
  time_in_seconds : ℝ
  ms_level : ℕ
  isolation_min_mz : Option ℝ
  isolation_max_mz : Option ℝ

/-- A metadata row after arena construction: the base columns plus the
derived `peak_start` / `peak_stop` offset columns. -/
structure ScanMeta extends ScanMetaBase where
  peak_start : ℕ
  peak_stop : ℕ

/-- Running sums: `cumSumFrom acc [x1, x2, ...] = [acc+x1, acc+x1+x2, ...]`. -/
def cumSumFrom (acc : ℕ) : List ℕ → List ℕ
  | [] => []
  | x :: xs => (acc + x) :: cumSumFrom (acc + x) xs

/-- `pl.col("peak_count").cum_sum()`. -/
def cumSum (l : List ℕ) : List ℕ := cumSumFrom 0 l

/-- `pl.col("peak_stop").shift(1).fill_null(0)`. -/
def shiftFillZero : List ℕ → List ℕ
  | [] => []
  | l => 0 :: l.dropLast

/-- `np.concatenate`: fails (ValueError) when given an empty list of arrays. -/
def npConcatenate (ls : List (List ℝ)) : Option (List ℝ) :=
  match ls with
  | [] => none
  | _ => some ls.flatten

/-- `num_to_idx[frame_nums] = np.arange(len(frame_nums))`: sequential scatter
of row indices, with numpy fancy-indexing bounds checking (an index outside
the array is an IndexError). -/
def scatterRowIndices : List ℕ → List ℕ → ℕ → Option (List ℕ)
  | arr, [], _ => some arr
  | arr, fn :: rest, i =>
    if fn < arr.length then scatterRowIndices (arr.set fn i) rest (i + 1) else none

/-- `get_frame_num_to_index_arr` (utils.py): allocates
`np.zeros(frame_nums[-1] + 1)` (IndexError on an empty column) and scatters
`arange(len(frame_nums))` at positions `frame_nums`. -/
def get_frame_num_to_index_arr (frame_nums : List ℕ) : Option (List ℕ) :=
  match frame_nums.getLast? with
  | none => none
  | some last => scatterRowIndices (List.replicate (last + 1) 0) frame_nums 0

/-- The ways `MassSpecData.create` can fail:
`shapeMismatch` is the `assert meta_df.shape[0] == len(list_of_peaks)`;
`emptyConcatenate` is numpy's ValueError on `np.concatenate([])`;
`frameIndexError` is an IndexError inside `get_frame_num_to_index_arr`. -/
inductive CreateError where
  | shapeMismatch
  | emptyConcatenate
  | frameIndexError
deriving DecidableEq

/-- The Store: run identifier, derived frame index, augmented metadata
table, the arena pair, and the lazily computed z-score buffer. -/
structure MassSpecData where
  run_name : String
  frame_num_to_index : List ℕ
  meta_df : List ScanMeta
  peaks : PeakArray
  z_score_arr : Option (List ℝ)

/-- `MassSpecData.create`: checks the shape precondition, appends
`peak_count`, `peak_stop = cum_sum(peak_count)` and
`peak_start = peak_stop.shift(1).fill_null(0)` to the metadata table,
concatenates the per-scan `mz` and `ab` arrays into the arena, and builds
the frame index from the `frame_num` column (in `__init__`). -/
def MassSpecData.create (run_name : String) (meta_df : List ScanMetaBase)
    (list_of_peaks : List PeakArray) : Except CreateError MassSpecData :=
  if meta_df.length = list_of_peaks.length then
    let peak_count := list_of_peaks.map PeakArray.len
    let peak_stop := cumSum peak_count
    let peak_start := shiftFillZero peak_stop
    let meta := (meta_df.zip (peak_start.zip peak_stop)).map
      (fun r => { toScanMetaBase := r.1, peak_start := r.2.1, peak_stop := r.2.2 })
    match npConcatenate (list_of_peaks.map PeakArray.mz),
          npConcatenate (list_of_peaks.map PeakArray.ab) with
    | some mz, some ab =>
      match get_frame_num_to_index_arr (meta_df.map ScanMetaBase.frame_num) with
      | some idx => .ok ⟨run_name, idx, meta, ⟨mz, ab⟩, none⟩
      | none => .error .frameIndexError
    | _, _ => .error .emptyConcatenate
  else .error .shapeMismatch

/-- Python slice `arr[st:ed]` on a 1-D array (clamping semantics). -/
def arrSlice (l : List ℝ) (st ed : ℕ) : List ℝ := (l.take ed).drop st

/-- `get_peak_index`: `idx = frame_num_to_index[frame_num]` (IndexError out
of range), then reads `peak_start` / `peak_stop` of row `idx`. -/
def MassSpecData.get_peak_index (s : MassSpecData) (frame_num : ℕ) :
    Option (ℕ × ℕ) := do
  let idx ← s.frame_num_to_index[frame_num]?
  let row ← s.meta_df[idx]?
  pure (row.peak_start, row.peak_stop)

/-- `get_frame`: slices the arena with the range from `get_peak_index`. -/
def MassSpecData.get_frame (s : MassSpecData) (frame_num : ℕ) :
    Option PeakArray := do
  let r ← s.get_peak_index frame_num
  pure ⟨arrSlice s.peaks.mz r.1 r.2, arrSlice s.peaks.ab r.1 r.2⟩

/-- numpy fancy indexing `arr[idxs]` (gather, with bounds checking); also
models the polars row gather `meta_df[indices]`. -/
def npTake {α : Type} (arr : List α) (idxs : List ℕ) : Option (List α) :=
  idxs.mapM (fun i => arr[i]?)

/-- `collect_peaks`: gathers the rows of the requested frames, then fills
pre-allocated outputs block by block (blocks modelled as a concatenation;
rows with an empty range are skipped by the `n > 0` guard). The fourth
output is `None` when the z-score buffer has not been computed. -/
def MassSpecData.collect_peaks (s : MassSpecData) (frame_nums : List ℕ) :
    Option (List ℕ × List ℝ × List ℝ × Option (List ℝ)) := do
  let idxs ← npTake s.frame_num_to_index frame_nums
  let rows ← npTake s.meta_df idxs
  let frame_num_arr := rows.flatMap (fun r =>
    if r.peak_start < r.peak_stop then
      List.replicate (r.peak_stop - r.peak_start) r.frame_num
    else [])
  let mz_out := rows.flatMap (fun r =>
    if r.peak_start < r.peak_stop then arrSlice s.peaks.mz r.peak_start r.peak_stop
    else [])
  let ab_out := rows.flatMap (fun r =>
    if r.peak_start < r.peak_stop then arrSlice s.peaks.ab r.peak_start r.peak_stop
    else [])
  let z_out := s.z_score_arr.map (fun z => rows.flatMap (fun r =>
    if r.peak_start < r.peak_stop then arrSlice z r.peak_start r.peak_stop
    else []))
  pure (frame_num_arr, mz_out, ab_out, z_out)

open Classical in
/-- Ascending sort of an intensity array (numpy quantile sorts internally). -/
noncomputable def sortArr (l : List ℝ) : List ℝ :=
  l.insertionSort (fun a b => a ≤ b)

/-- `np.quantile(ab, p)` with the default linear-interpolation method:
`h = p * (n - 1)`, `i = floor h`, result
`s[i] + (h - i) * (s[i+1] - s[i])` on the sorted data `s`. -/
noncomputable def npQuantile (l : List ℝ) (p : ℝ) : ℝ :=
  let s := sortArr l
  let h := p * ((l.length : ℝ) - 1)
  let i := (⌊h⌋).toNat
  s.getD i 0 + (h - (i : ℝ)) * (s.getD (i + 1) 0 - s.getD i 0)

/-- The Gauss error function, `math.erf`. -/
noncomputable def erf (x : ℝ) : ℝ :=
  (2 / Real.sqrt Real.pi) * ∫ t in (0 : ℝ)..x, Real.exp (-(t ^ 2))

/-- `_norm_cdf` (utils.py): `0.5 * (1.0 + math.erf(z / math.sqrt(2.0)))`. -/
noncomputable def norm_cdf (z : ℝ) : ℝ :=
  0.5 * (1 + erf (z / Real.sqrt 2))

/-- One iteration of the range loop of `compute_z_score_cdf_numba`: for a
range `[st, ed)` with `ed > st`, computes the quartiles of `ab_arr[st:ed]`
and, when `iqr > 0`, overwrites `out[j]` for `st <= j < ed` with
`_norm_cdf((ab_arr[j] - q2) * (1 / iqr))`; the output buffer is threaded
as a function `ℕ → ℝ`. -/
noncomputable def zScoreStep (ab_arr : List ℝ) (out : ℕ → ℝ) (r : ℕ × ℕ) : ℕ → ℝ :=
  open Classical in
  if r.1 < r.2 then
    let ab := arrSlice ab_arr r.1 r.2
    let q1 := npQuantile ab 0.25
    let q2 := npQuantile ab 0.5
    let q3 := npQuantile ab 0.75
    let iqr := q3 - q1
    if 0 < iqr then
      fun j =>
        if r.1 ≤ j ∧ j < r.2 then norm_cdf ((ab_arr.getD j 0 - q2) * (1 / iqr))
        else out j
    else out
  else out

/-- `compute_z_score_cdf_numba` (utils.py): the output buffer starts at the
neutral default `0.5` everywhere, each scan range then rewrites its own
positions; the buffer has the length of `ab_arr`. -/
noncomputable def compute_z_score_cdf (ab_arr : List ℝ)
    (peak_range_arr : List (ℕ × ℕ)) : List ℝ :=
  List.ofFn (fun k : Fin ab_arr.length =>
    (peak_range_arr.foldl (zScoreStep ab_arr) (fun _ => 0.5)) k.1)

/-- `compute_z_score`: computes and caches the z-score buffer when it is
absent; a no-op when it is already present. -/
noncomputable def MassSpecData.compute_z_score (s : MassSpecData) : MassSpecData :=
  match s.z_score_arr with
  | some _ => s
  | none =>
    { s with z_score_arr := some (compute_z_score_cdf s.peaks.ab
        (s.meta_df.map (fun r => (r.peak_start, r.peak_stop)))) }

/-- One namespace of the HDF container: the two arena datasets and the
metadata table written under `{group_key}/meta_df`. -/
structure HdfGroup where
  mz : List ℝ
  ab : List ℝ
  meta_df : List ScanMeta

/-- The HDF container file: namespaces keyed by group name (association
list; `h5py.File(path, "a")` opens it, creating it when missing). -/
abbrev HdfFile := List (String × HdfGroup)

/-- `FileExistsError("LC/MS data already exists")`. -/
inductive WriteError where
  | alreadyExists
deriving DecidableEq

/-- `write_hdf`: under the namespace keyed by `run_name`, writes the arena
`mz` / `ab` datasets and the metadata table. When the key is already
present: with `overwrite` the prior namespace is deleted
(`del hf[group_key]`) before the fresh one is created; without it the call
raises and writes nothing. -/
def MassSpecData.write_hdf (s : MassSpecData) (hf : HdfFile)
    (overwrite : Bool) : Except WriteError HdfFile :=
  let group_key := s.run_name
  if (List.lookup group_key hf).isSome then
    if overwrite then
      .ok ((hf.filter (fun g => g.1 != group_key)) ++
        [(group_key, ⟨s.peaks.mz, s.peaks.ab, s.meta_df⟩)])
    else .error .alreadyExists
  else .ok (hf ++ [(group_key, ⟨s.peaks.mz, s.peaks.ab, s.meta_df⟩)])

/-- Disjointness of two half-open `[start, stop)` ranges. -/
def RangeDisj (a b : ℕ × ℕ) : Prop :=
  ∀ j, a.1 ≤ j → j < a.2 → ¬(b.1 ≤ j ∧ j < b.2)

/-- A quartile of the intensities of one scan range. -/
noncomputable def rangeQ (ab_arr : List ℝ) (r : ℕ × ℕ) (p : ℝ) : ℝ :=
  npQuantile (arrSlice ab_arr r.1 r.2) p

/-- Fixture: the spec §8 scenario — scan 10 with `mz=[100, 200]`,
`ab=[5, 5]`; scan 12 with `mz=[150]`, `ab=[10]`; scan 11 is a gap. -/
def exMeta : List ScanMetaBase :=
  [⟨10, 0, 0, 0, 1, none, none⟩, ⟨12, 0, 0, 0, 1, none, none⟩]

/-- Fixture: the peak lists of the spec §8 scenario. -/
def exPeaks : List PeakArray :=
  [⟨[100, 200], [5, 5]⟩, ⟨[150], [10]⟩]

/-- Fixture: a store whose z-score buffer is already present. -/
def exStoreZ : MassSpecData :=
  ⟨"r", [0], [⟨⟨3, 0, 0, 0, 1, none, none⟩, 0, 1⟩], ⟨[7], [2]⟩, some [0.5]⟩

/-- Fixture: a container already holding a namespace keyed "r". -/
def exHdf : HdfFile :=
  [("r", ⟨[1], [2], []⟩), ("other", ⟨[3], [4], []⟩)]

/-- Fixture: the store `create` builds from `exMeta` / `exPeaks` (arena
`mz=[100,200,150]`, offsets `[0,2)` and `[2,3)`, frame index of length 13). -/
def exStore : MassSpecData :=
  ⟨"r", [0, 0, 0, 0, 0, 0, 0, 0, 0, 0, 0, 0, 1],
   [⟨⟨10, 0, 0, 0, 1, none, none⟩, 0, 2⟩, ⟨⟨12, 0, 0, 0, 1, none, none⟩, 2, 3⟩],
   ⟨[100, 200, 150], [5, 5, 10]⟩, none⟩

lemma cumSumFrom_length (a : ℕ) (l : List ℕ) : (cumSumFrom a l).length = l.length := by
  induction l generalizing a with
  | nil => rfl
  | cons x xs ih => simp [cumSumFrom, ih]

lemma cumSum_length (l : List ℕ) : (cumSum l).length = l.length :=
  cumSumFrom_length 0 l

lemma cumSumFrom_getElem (a : ℕ) (l : List ℕ) (i : ℕ)
    (h : i < (cumSumFrom a l).length) :
    (cumSumFrom a l)[i] = a + (l.take (i + 1)).sum := by
  induction l generalizing a i with
  | nil => simp [cumSumFrom] at h
  | cons x xs ih =>
    cases i with
    | zero => simp [cumSumFrom]
    | succ n =>
      have hn : n < (cumSumFrom (a + x) xs).length := by
        simpa [cumSumFrom] using h
      simp only [cumSumFrom, List.getElem_cons_succ, ih (a + x) n hn,
        List.take_succ_cons, List.sum_cons]
      ring

lemma cumSum_getElem (l : List ℕ) (i : ℕ) (h : i < (cumSum l).length) :
    (cumSum l)[i] = (l.take (i + 1)).sum := by
  simpa using cumSumFrom_getElem 0 l i h

lemma shiftFillZero_length (l : List ℕ) : (shiftFillZero l).length = l.length := by
  cases l with
  | nil => rfl
  | cons x xs => simp [shiftFillZero]

lemma shiftFillZero_getElem_zero (l : List ℕ) (h : 0 < (shiftFillZero l).length) :
    (shiftFillZero l)[0] = 0 := by
  cases l with
  | nil => simp [shiftFillZero] at h
  | cons x xs => simp [shiftFillZero]

lemma shiftFillZero_getElem_succ (l : List ℕ) (i : ℕ)
    (h : i + 1 < (shiftFillZero l).length) (hl : i < l.length) :
    (shiftFillZero l)[i + 1] = l[i] := by
  cases l with
  | nil => simp [shiftFillZero] at h
  | cons x xs =>
    have h2 : i < (x :: xs).dropLast.length := by
      simpa [shiftFillZero] using h
    simp only [shiftFillZero, List.getElem_cons_succ]
    exact List.getElem_dropLast (x :: xs) i h2

lemma cumSumFrom_getLast (a : ℕ) (l : List ℕ) (h : cumSumFrom a l ≠ []) :
    (cumSumFrom a l).getLast h = a + l.sum := by
  have hpos : 0 < l.length := by
    cases l with
    | nil => simp [cumSumFrom] at h
    | cons x xs => simp
  have hlt : (cumSumFrom a l).length - 1 < (cumSumFrom a l).length := by
    rw [cumSumFrom_length]
    omega
  rw [List.getLast_eq_getElem, cumSumFrom_getElem a l _ hlt]
  congr 1
  have : (cumSumFrom a l).length - 1 + 1 = l.length := by
    rw [cumSumFrom_length]; omega
  rw [this, List.take_length]

lemma cumSum_getLast (l : List ℕ) (h : cumSum l ≠ []) :
    (cumSum l).getLast h = l.sum := by
  simpa using cumSumFrom_getLast 0 l h

lemma npConcatenate_eq_some {ls : List (List ℝ)} {v : List ℝ}
    (h : npConcatenate ls = some v) : ls ≠ [] ∧ v = ls.flatten := by
  cases ls with
  | nil => simp [npConcatenate] at h
  | cons x xs =>
    refine ⟨by simp, ?_⟩
    have := h
    unfold npConcatenate at this
    exact (Option.some.inj this).symm

/-- Inversion of a successful `create`: the shapes matched, the input was
non-empty, and the store is exactly the arena, augmented table and frame
index built from the inputs. -/
lemma create_ok_inv {run : String} {meta : List ScanMetaBase}
    {ps : List PeakArray} {s : MassSpecData}
    (h : MassSpecData.create run meta ps = .ok s) :
    meta.length = ps.length ∧ ps ≠ [] ∧
    ∃ idx, get_frame_num_to_index_arr (meta.map ScanMetaBase.frame_num) = some idx ∧
      s = ⟨run, idx,
            (meta.zip ((shiftFillZero (cumSum (ps.map PeakArray.len))).zip
              (cumSum (ps.map PeakArray.len)))).map
              (fun r => ⟨r.1, r.2.1, r.2.2⟩),
            ⟨(ps.map PeakArray.mz).flatten, (ps.map PeakArray.ab).flatten⟩,
            none⟩ := by
  unfold MassSpecData.create at h
  split at h
  case isTrue hlen =>
    refine ⟨hlen, ?_⟩
    split at h
    case h_1 mzv abv hmz hab =>
      obtain ⟨hmzne, hmz2⟩ := npConcatenate_eq_some hmz
      obtain ⟨-, hab2⟩ := npConcatenate_eq_some hab
      have hne : ps ≠ [] := by
        intro hnil
        subst hnil
        simp at hmzne
      refine ⟨hne, ?_⟩
      split at h
      case h_1 idx hidx =>
        refine ⟨idx, hidx, ?_⟩
        cases h
        subst hmz2 hab2
        rfl
      case h_2 => cases h
    case h_2 => cases h
  case isFalse => cases h

lemma shiftFillZero_cumSum_getElem (l : List ℕ) (i : ℕ)
    (h : i < (shiftFillZero (cumSum l)).length) :
    (shiftFillZero (cumSum l))[i] = (l.take i).sum := by
  cases i with
  | zero => simpa using shiftFillZero_getElem_zero _ (by omega)
  | succ n =>
    have hn : n < (cumSum l).length := by
      rw [shiftFillZero_length] at h
      omega
    rw [shiftFillZero_getElem_succ _ n h hn, cumSum_getElem l n hn]

lemma create_meta_length {run : String} {meta : List ScanMetaBase}
    {ps : List PeakArray} {s : MassSpecData}
    (h : MassSpecData.create run meta ps = .ok s) :
    s.meta_df.length = ps.length := by
  obtain ⟨hlen, -, idx, -, hs⟩ := create_ok_inv h
  subst hs
  simp [List.length_zip, shiftFillZero_length, cumSum_length, hlen]

lemma create_meta_row {run : String} {meta : List ScanMetaBase}
    {ps : List PeakArray} {s : MassSpecData}
    (h : MassSpecData.create run meta ps = .ok s)
    (i : ℕ) (hi : i < s.meta_df.length) (him : i < meta.length) :
    (s.meta_df[i]).toScanMetaBase = meta[i] ∧
    (s.meta_df[i]).peak_start = ((ps.map PeakArray.len).take i).sum ∧
    (s.meta_df[i]).peak_stop = ((ps.map PeakArray.len).take (i + 1)).sum := by
  obtain ⟨hlen, -, idx, -, hs⟩ := create_ok_inv h
  have hml : s.meta_df.length = ps.length := create_meta_length h
  have hi2 : i < ps.length := hml ▸ hi
  have hstart : i < (shiftFillZero (cumSum (ps.map PeakArray.len))).length := by
    rw [shiftFillZero_length, cumSum_length, List.length_map]
    exact hi2
  have hstop : i < (cumSum (ps.map PeakArray.len)).length := by
    rw [cumSum_length, List.length_map]
    exact hi2
  subst hs
  simp only [MassSpecData.meta_df, List.getElem_map, List.getElem_zip]
  exact ⟨by simp, shiftFillZero_cumSum_getElem _ i hstart, cumSum_getElem _ i hstop⟩

lemma scatterRowIndices_length {fns : List ℕ} {arr res : List ℕ} {i : ℕ}
    (h : scatterRowIndices arr fns i = some res) : res.length = arr.length := by
  induction fns generalizing arr i with
  | nil =>
    simp only [scatterRowIndices] at h
    cases h
    rfl
  | cons fn rest ih =>
    simp only [scatterRowIndices] at h
    split at h
    · rw [ih h, List.length_set]
    · cases h

lemma scatterRowIndices_isSome {fns : List ℕ} (arr : List ℕ) (i : ℕ)
    (h : ∀ f ∈ fns, f < arr.length) :
    ∃ res, scatterRowIndices arr fns i = some res := by
  induction fns generalizing arr i with
  | nil => exact ⟨arr, rfl⟩
  | cons fn rest ih =>
    have hfn : fn < arr.length := h fn (by simp)
    have hrest : ∀ f ∈ rest, f < (arr.set fn i).length := by
      intro f hf
      rw [List.length_set]
      exact h f (by simp [hf])
    obtain ⟨res, hres⟩ := ih (arr.set fn i) (i + 1) hrest
    exact ⟨res, by simp only [scatterRowIndices, if_pos hfn]; exact hres⟩

lemma scatterRowIndices_notMem {fns : List ℕ} {arr res : List ℕ} {i : ℕ}
    (h : scatterRowIndices arr fns i = some res) (p : ℕ) (hp : p ∉ fns) :
    res[p]? = arr[p]? := by
  induction fns generalizing arr i with
  | nil =>
    simp only [scatterRowIndices] at h
    cases h
    rfl
  | cons fn rest ih =>
    simp only [scatterRowIndices] at h
    split at h
    · have hne : p ∉ rest := fun hmem => hp (by simp [hmem])
      have hpf : fn ≠ p := fun he => hp (by simp [he])
      rw [ih h hne, List.getElem?_set_ne hpf]
    · cases h

lemma scatterRowIndices_mem {fns : List ℕ} {arr res : List ℕ} {i : ℕ}
    (h : scatterRowIndices arr fns i = some res) (hnd : fns.Nodup)
    (k : ℕ) (hk : k < fns.length) : res[fns[k]]? = some (i + k) := by
  induction fns generalizing arr i k with
  | nil => simp at hk
  | cons fn rest ih =>
    simp only [scatterRowIndices] at h
    split at h
    case isTrue hfn =>
      cases k with
      | zero =>
        have hni : fn ∉ rest := (List.nodup_cons.mp hnd).1
        rw [List.getElem_cons_zero, scatterRowIndices_notMem h fn hni,
          List.getElem?_set_eq_of_lt i hfn]
        simp
      | succ n =>
        have hn : n < rest.length := by simpa using hk
        have := ih h (List.nodup_cons.mp hnd).2 n hn
        rw [List.getElem_cons_succ]
        rw [this]
        congr 1
        omega
    case isFalse => cases h

lemma sorted_lt_le_getLast {l : List ℕ} (hs : List.Sorted (· < ·) l)
    {a : ℕ} (ha : a ∈ l) (hne : l ≠ []) : a ≤ l.getLast hne := by
  obtain ⟨i, hia⟩ := List.mem_iff_get.mp ha
  have hlpos : 0 < l.length := List.length_pos.mpr hne
  have hil : (i : ℕ) < l.length := i.isLt
  rw [List.getLast_eq_getElem]
  rcases eq_or_lt_of_le (show (i : ℕ) ≤ l.length - 1 by omega) with heq | hlt
  · have hfin : i = (⟨l.length - 1, by omega⟩ : Fin l.length) := Fin.ext heq
    rw [← hia, hfin, List.get_eq_getElem]
  · have hrel := hs.rel_get_of_lt
      (show i < (⟨l.length - 1, by omega⟩ : Fin l.length) by
        simpa [Fin.lt_def] using hlt)
    rw [hia] at hrel
    simpa [List.get_eq_getElem] using le_of_lt hrel

/-- Behaviour of the frame-index builder on a sorted, unique, non-empty
scan-identifier column: dense array of length `last + 1`, row indices at
occupied positions, the default `0` elsewhere. -/
lemma frame_index_spec (fns : List ℕ) (hne : fns ≠ [])
    (hs : List.Sorted (· < ·) fns) :
    ∃ idx, get_frame_num_to_index_arr fns = some idx ∧
      idx.length = fns.getLast hne + 1 ∧
      (∀ k (hk : k < fns.length), idx[fns[k]]? = some k) ∧
      (∀ p, p < idx.length → p ∉ fns → idx[p]? = some 0) := by
  have hbound : ∀ f ∈ fns, f < (List.replicate (fns.getLast hne + 1) 0).length := by
    intro f hf
    rw [List.length_replicate]
    exact Nat.lt_succ_of_le (sorted_lt_le_getLast hs hf hne)
  obtain ⟨res, hres⟩ := scatterRowIndices_isSome (List.replicate (fns.getLast hne + 1) 0) 0 hbound
  have hlen : res.length = fns.getLast hne + 1 := by
    rw [scatterRowIndices_length hres, List.length_replicate]
  refine ⟨res, ?_, hlen, ?_, ?_⟩
  · unfold get_frame_num_to_index_arr
    rw [List.getLast?_eq_getLast_of_ne_nil hne]
    exact hres
  · intro k hk
    simpa using scatterRowIndices_mem hres (hs.nodup) k hk
  · intro p hp hpn
    rw [scatterRowIndices_notMem hres p hpn, List.getElem?_replicate]
    rw [hlen] at hp
    simp [hp]

lemma exStore_create : MassSpecData.create "r" exMeta exPeaks = .ok exStore := rfl

/-- C6: for every sorted, unique, non-empty scan-identifier column, the
frame-index builder returns a dense array of length `max(scan_id) + 1`
(the last element of a sorted column is its maximum, witnessed by the two
maximality conjuncts) in which position `scan_id` holds the row index for
every row, and every position whose identifier does not occur holds the
default value `0`. -/
theorem frame_index_builder_contract (fns : List ℕ) (hne : fns ≠ [])
    (hs : List.Sorted (· < ·) fns) :
    ∃ idx, get_frame_num_to_index_arr fns = some idx ∧
      fns.getLast hne ∈ fns ∧
      (∀ f ∈ fns, f ≤ fns.getLast hne) ∧
      idx.length = fns.getLast hne + 1 ∧
      (∀ k (hk : k < fns.length), idx[fns[k]]? = some k) ∧
      (∀ p, p < idx.length → p ∉ fns → idx[p]? = some 0) := by
  obtain ⟨idx, h1, h2, h3, h4⟩ := frame_index_spec fns hne hs
  exact ⟨idx, h1, List.getLast_mem hne,
    fun f hf => sorted_lt_le_getLast hs hf hne, h2, h3, h4⟩

theorem frame_index_builder_contract_witness :
    ∃ idx, get_frame_num_to_index_arr [10, 12] = some idx ∧
      [10, 12].getLast (by simp) ∈ [10, 12] ∧
      (∀ f ∈ [10, 12], f ≤ [10, 12].getLast (by simp)) ∧
      idx.length = [10, 12].getLast (by simp) + 1 ∧
      (∀ k (hk : k < [10, 12].length), idx[[10, 12][k]]? = some k) ∧
      (∀ p, p < idx.length → p ∉ [10, 12] → idx[p]? = some 0) :=
  frame_index_builder_contract [10, 12] (by simp) (by decide)

/-- C2: for every run name, metadata table and peak-list sequence of equal
length from which `create` returns a Store, the arena invariants hold:
`peak_start` of the first row is 0; `peak_stop[i] = peak_start[i] +
len(peak_lists[i])`; `peak_start[i+1] = peak_stop[i]`; `peak_stop` of the
last row equals the length of both arena buffers; and the arena `mz` and
`ab` buffers are the concatenation of the per-scan sequences in input
order. (The two-buffer length equality presupposes the PeakList invariant
`len(mz) == len(ab)` of the data model.) -/
theorem create_arena_invariants {run : String} {meta : List ScanMetaBase}
    {ps : List PeakArray} {s : MassSpecData}
    (h : MassSpecData.create run meta ps = .ok s)
    (hab : ∀ p ∈ ps, p.ab.length = p.mz.length) :
    (∀ h0 : 0 < s.meta_df.length, (s.meta_df[0]).peak_start = 0) ∧
    (∀ i (hi : i < s.meta_df.length) (hp : i < ps.length),
      (s.meta_df[i]).peak_stop = (s.meta_df[i]).peak_start + (ps.get ⟨i, hp⟩).len) ∧
    (∀ i (hi : i + 1 < s.meta_df.length) (hi2 : i < s.meta_df.length),
      (s.meta_df[i + 1]).peak_start = (s.meta_df[i]).peak_stop) ∧
    (∀ hne : s.meta_df ≠ [],
      (s.meta_df.getLast hne).peak_stop = s.peaks.mz.length ∧
      (s.meta_df.getLast hne).peak_stop = s.peaks.ab.length) ∧
    s.peaks.mz = (ps.map PeakArray.mz).flatten ∧
    s.peaks.ab = (ps.map PeakArray.ab).flatten := by
  obtain ⟨hlen, hne0, idx, hidx, hs⟩ := create_ok_inv h
  have hml : s.meta_df.length = ps.length := create_meta_length h
  have hmeta : meta.length = ps.length := hlen
  refine ⟨?_, ?_, ?_, ?_, ?_, ?_⟩
  · intro h0
    have him : 0 < meta.length := by omega
    exact ((create_meta_row h 0 h0 him).2.1).trans (by simp)
  · intro i hi hp
    have him : i < meta.length := by omega
    obtain ⟨-, hstart, hstop⟩ := create_meta_row h i hi him
    rw [hstart, hstop]
    have hcl : i < (ps.map PeakArray.len).length := by simpa using hp
    rw [List.sum_take_succ _ i hcl, List.getElem_map]
    congr 1
  · intro i hi hi2
    have him1 : i + 1 < meta.length := by omega
    have him2 : i < meta.length := by omega
    rw [(create_meta_row h (i + 1) hi him1).2.1, (create_meta_row h i hi2 him2).2.2]
  · intro hne
    have hpos : 0 < s.meta_df.length := List.length_pos.mpr hne
    have hlast : s.meta_df.length - 1 < s.meta_df.length := by omega
    have him : s.meta_df.length - 1 < meta.length := by omega
    rw [List.getLast_eq_getElem,
      (create_meta_row h (s.meta_df.length - 1) hlast him).2.2]
    have htake : s.meta_df.length - 1 + 1 = (ps.map PeakArray.len).length := by
      simp [hml]
      omega
    rw [htake, List.take_length]
    subst hs
    constructor
    · simp only [MassSpecData.peaks, List.length_flatten, List.map_map]
      rfl
    · simp only [MassSpecData.peaks, List.length_flatten, List.map_map]
      refine congrArg List.sum (List.map_congr_left ?_)
      intro p hp
      exact (hab p hp).symm
  · subst hs; rfl
  · subst hs; rfl

theorem create_arena_invariants_witness :
    MassSpecData.create "r" exMeta exPeaks = .ok exStore ∧
    ((∀ h0 : 0 < exStore.meta_df.length, (exStore.meta_df[0]).peak_start = 0) ∧
    (∀ i (hi : i < exStore.meta_df.length) (hp : i < exPeaks.length),
      (exStore.meta_df[i]).peak_stop =
        (exStore.meta_df[i]).peak_start + (exPeaks.get ⟨i, hp⟩).len) ∧
    (∀ i (hi : i + 1 < exStore.meta_df.length) (hi2 : i < exStore.meta_df.length),
      (exStore.meta_df[i + 1]).peak_start = (exStore.meta_df[i]).peak_stop) ∧
    (∀ hne : exStore.meta_df ≠ [],
      (exStore.meta_df.getLast hne).peak_stop = exStore.peaks.mz.length ∧
      (exStore.meta_df.getLast hne).peak_stop = exStore.peaks.ab.length) ∧
    exStore.peaks.mz = (exPeaks.map PeakArray.mz).flatten ∧
    exStore.peaks.ab = (exPeaks.map PeakArray.ab).flatten) :=
  ⟨exStore_create,
   create_arena_invariants exStore_create (by
    intro p hp
    fin_cases hp <;> rfl)⟩

/-- C7 (counterexample): the zero-row metadata table and the empty
peak-list sequence have equal length, yet `create` fails (numpy refuses to
concatenate an empty list of arrays) instead of succeeding. -/
theorem create_equal_length_succeeds_cex :
    MassSpecData.create "r" [] [] = .error .emptyConcatenate := rfl

/-- C7 (amended): for every metadata table and peak-list sequence whose
lengths differ, `create` fails with the ShapeMismatch assertion and
produces no Store; for inputs of equal length construction succeeds
provided the batch is non-empty (and, per the data model, the
scan-identifier column ascends). -/
theorem create_shape_check (run : String) (meta : List ScanMetaBase)
    (ps : List PeakArray) :
    (meta.length ≠ ps.length →
      MassSpecData.create run meta ps = .error .shapeMismatch) ∧
    (meta.length = ps.length → ps ≠ [] →
      List.Sorted (· < ·) (meta.map ScanMetaBase.frame_num) →
      ∃ s, MassSpecData.create run meta ps = .ok s) := by
  constructor
  · intro hne
    unfold MassSpecData.create
    rw [if_neg hne]
  · intro hlen hne hs
    have hmne : meta ≠ [] := by
      intro hnil
      apply hne
      subst hnil
      simpa using hlen.symm
    have hfne : meta.map ScanMetaBase.frame_num ≠ [] := by
      simpa using hmne
    obtain ⟨idx, hidx, -⟩ := frame_index_spec _ hfne hs
    obtain ⟨p, pr, rfl⟩ := List.exists_cons_of_ne_nil hne
    unfold MassSpecData.create
    rw [if_pos hlen]
    simp only [List.map_cons, npConcatenate, hidx]
    exact ⟨_, rfl⟩

/-- The non-degenerate half of C7, applied to the §8 fixture. -/
theorem create_shape_check_witness :
    ([] : List ScanMetaBase).length ≠ exPeaks.length ∧
    MassSpecData.create "q" [] exPeaks = .error .shapeMismatch ∧
    (∃ s, MassSpecData.create "r" exMeta exPeaks = .ok s) :=
  ⟨by decide,
   (create_shape_check "q" [] exPeaks).1 (by decide),
   (create_shape_check "r" exMeta exPeaks).2 (by decide) (by simp [exPeaks]) (by decide)⟩

/-- C10: `create` rejects the empty batch — with a zero-row metadata table
and an empty peak-list sequence (equal lengths, so the stated precondition
holds) it fails with the empty-concatenate error instead of returning a
Store; consequently every successfully constructed Store contains at least
one scan. -/
theorem create_empty_batch_fails :
    (∀ run, MassSpecData.create run [] [] = .error .emptyConcatenate) ∧
    (∀ (run : String) (meta : List ScanMetaBase) (ps : List PeakArray)
      (s : MassSpecData), MassSpecData.create run meta ps = .ok s →
      0 < s.meta_df.length) := by
  constructor
  · intro run
    rfl
  · intro run meta ps s h
    obtain ⟨hlen, hne, -⟩ := create_ok_inv h
    have := create_meta_length h
    have : ps.length ≠ 0 := by simpa using hne
    omega

theorem create_empty_batch_fails_witness :
    MassSpecData.create "r" [] [] = .error .emptyConcatenate ∧
    0 < exStore.meta_df.length :=
  ⟨create_empty_batch_fails.1 "r",
   create_empty_batch_fails.2 "r" exMeta exPeaks exStore exStore_create⟩

lemma create_meta_ne_nil {run : String} {meta : List ScanMetaBase}
    {ps : List PeakArray} {s : MassSpecData}
    (h : MassSpecData.create run meta ps = .ok s) : meta ≠ [] := by
  obtain ⟨hlen, hne, -⟩ := create_ok_inv h
  intro hnil
  subst hnil
  exact hne (List.eq_nil_of_length_eq_zero hlen.symm)

lemma create_index_eq {run : String} {meta : List ScanMetaBase}
    {ps : List PeakArray} {s : MassSpecData}
    (h : MassSpecData.create run meta ps = .ok s) :
    get_frame_num_to_index_arr (meta.map ScanMetaBase.frame_num) =
      some s.frame_num_to_index := by
  obtain ⟨-, -, idx, hidx, hsEq⟩ := create_ok_inv h
  subst hsEq
  exact hidx

lemma create_index_lookup_mem {run : String} {meta : List ScanMetaBase}
    {ps : List PeakArray} {s : MassSpecData}
    (h : MassSpecData.create run meta ps = .ok s)
    (hs : List.Sorted (· < ·) (meta.map ScanMetaBase.frame_num))
    (k : ℕ) (hk : k < meta.length) :
    s.frame_num_to_index[(meta.get ⟨k, hk⟩).frame_num]? = some k := by
  have hfne : meta.map ScanMetaBase.frame_num ≠ [] := by
    simpa using create_meta_ne_nil h
  obtain ⟨idx, hidx, -, hmem, -⟩ := frame_index_spec _ hfne hs
  rw [create_index_eq h] at hidx
  cases hidx
  have hk2 : k < (meta.map ScanMetaBase.frame_num).length := by simpa using hk
  have := hmem k hk2
  simpa [List.get_eq_getElem] using this

lemma create_index_lookup_gap {run : String} {meta : List ScanMetaBase}
    {ps : List PeakArray} {s : MassSpecData}
    (h : MassSpecData.create run meta ps = .ok s)
    (hs : List.Sorted (· < ·) (meta.map ScanMetaBase.frame_num))
    (p : ℕ) (hp : p < s.frame_num_to_index.length)
    (hpn : p ∉ meta.map ScanMetaBase.frame_num) :
    s.frame_num_to_index[p]? = some 0 := by
  have hfne : meta.map ScanMetaBase.frame_num ≠ [] := by
    simpa using create_meta_ne_nil h
  obtain ⟨idx, hidx, -, -, hgap⟩ := frame_index_spec _ hfne hs
  rw [create_index_eq h] at hidx
  cases hidx
  exact hgap p hp hpn

/-- C1 (counterexample): in the spec §8 scenario (scans 10 and 12), the
gap identifier 11 does not fail with UnknownScan: `get_peak_index` returns
row 0's range `(0, 2)`. -/
theorem get_peak_index_unknown_scan_cex :
    (MassSpecData.create "r" exMeta exPeaks).map
      (fun s => s.get_peak_index 11) = .ok (some (0, 2)) := rfl

/-- C1 (amended): on a Store built by `create` from an ascending metadata
table, `get_peak_index` returns the stored row's `(peak_start, peak_stop)`
for every present scan identifier, and fails (numpy IndexError, no range)
for an identifier beyond the frame-index range; but for an identifier in a
gap inside the range it silently returns row 0's range — the raw lookup
yields the default 0 — instead of failing with UnknownScan. -/
theorem get_peak_index_domain {run : String} {meta : List ScanMetaBase}
    {ps : List PeakArray} {s : MassSpecData}
    (h : MassSpecData.create run meta ps = .ok s)
    (hs : List.Sorted (· < ·) (meta.map ScanMetaBase.frame_num)) :
    (∀ k (hk : k < meta.length) (hk2 : k < s.meta_df.length),
      s.get_peak_index ((meta.get ⟨k, hk⟩).frame_num) =
        some ((s.meta_df.get ⟨k, hk2⟩).peak_start,
              (s.meta_df.get ⟨k, hk2⟩).peak_stop)) ∧
    (∀ f, s.frame_num_to_index.length ≤ f → s.get_peak_index f = none) ∧
    (∀ f, f < s.frame_num_to_index.length →
      f ∉ meta.map ScanMetaBase.frame_num → ∀ h0 : 0 < s.meta_df.length,
      s.get_peak_index f =
        some ((s.meta_df.get ⟨0, h0⟩).peak_start,
              (s.meta_df.get ⟨0, h0⟩).peak_stop)) := by
  refine ⟨?_, ?_, ?_⟩
  · intro k hk hk2
    unfold MassSpecData.get_peak_index
    rw [create_index_lookup_mem h hs k hk]
    simp [List.getElem?_eq_getElem hk2, List.get_eq_getElem]
  · intro f hf
    unfold MassSpecData.get_peak_index
    rw [List.getElem?_eq_none hf]
    rfl
  · intro f hf hfn h0
    unfold MassSpecData.get_peak_index
    rw [create_index_lookup_gap h hs f hf hfn]
    simp [List.getElem?_eq_getElem h0, List.get_eq_getElem]

theorem get_peak_index_domain_witness :
    exStore.get_peak_index 12 = some (2, 3) ∧
    exStore.get_peak_index 13 = none ∧
    exStore.get_peak_index 11 = some (0, 2) := by
  have h := get_peak_index_domain exStore_create (by decide)
  refine ⟨?_, ?_, ?_⟩
  · have h1 := h.1 1 (by decide) (by decide)
    simpa [exMeta, exStore] using h1
  · exact h.2.1 13 (by decide)
  · have h3 := h.2.2 11 (by decide) (by decide) (by decide)
    simpa [exStore] using h3

lemma arrSlice_append_shift (x l : List ℝ) (a b : ℕ) :
    arrSlice (x ++ l) (x.length + a) (x.length + b) = arrSlice l a b := by
  unfold arrSlice
  rw [List.take_append_eq_append_take, List.take_of_length_le (by omega),
    List.drop_append_eq_append_drop, List.drop_eq_nil_of_le (by omega)]
  simp

lemma flatten_arrSlice (ls : List (List ℝ)) (k : ℕ) (hk : k < ls.length) :
    arrSlice ls.flatten (((ls.map List.length).take k).sum)
      (((ls.map List.length).take (k + 1)).sum) = ls.get ⟨k, hk⟩ := by
  induction ls generalizing k with
  | nil => simp at hk
  | cons x rest ih =>
    cases k with
    | zero =>
      simp only [List.flatten_cons, List.map_cons, List.take_zero,
        List.sum_nil, List.take_succ_cons, List.sum_cons, List.take_nil,
        List.sum_nil, Nat.add_zero, List.get]
      unfold arrSlice
      rw [List.take_left]
      rfl
    | succ n =>
      have hn : n < rest.length := by simpa using hk
      simp only [List.flatten_cons, List.map_cons, List.take_succ_cons,
        List.sum_cons, List.get]
      rw [arrSlice_append_shift]
      exact ih n hn

/-- C3: round-trip through construction — for every Store built by
`create` (ascending identifiers, well-formed PeakLists) and every scan in
its metadata table, `get_frame` returns exactly the peak list supplied for
that scan, element for element. -/
theorem get_frame_roundtrip {run : String} {meta : List ScanMetaBase}
    {ps : List PeakArray} {s : MassSpecData}
    (h : MassSpecData.create run meta ps = .ok s)
    (hs : List.Sorted (· < ·) (meta.map ScanMetaBase.frame_num))
    (hab : ∀ p ∈ ps, p.ab.length = p.mz.length)
    (k : ℕ) (hk : k < meta.length) (hkp : k < ps.length) :
    s.get_frame ((meta.get ⟨k, hk⟩).frame_num) = some (ps.get ⟨k, hkp⟩) := by
  have hk2 : k < s.meta_df.length := by rw [create_meta_length h]; exact hkp
  obtain ⟨-, hstart, hstop⟩ := create_meta_row h k hk2 hk
  have hpmz : s.peaks.mz = (ps.map PeakArray.mz).flatten := by
    obtain ⟨-, -, idx, -, hsEq⟩ := create_ok_inv h
    rw [hsEq]
  have hpab : s.peaks.ab = (ps.map PeakArray.ab).flatten := by
    obtain ⟨-, -, idx, -, hsEq⟩ := create_ok_inv h
    rw [hsEq]
  have hmzlen : (ps.map PeakArray.mz).map List.length = ps.map PeakArray.len := by
    rw [List.map_map]
    rfl
  have hablen : (ps.map PeakArray.ab).map List.length = ps.map PeakArray.len := by
    rw [List.map_map]
    exact List.map_congr_left fun p hp => hab p hp
  have hkmz : k < (ps.map PeakArray.mz).length := by simpa using hkp
  have hkab : k < (ps.map PeakArray.ab).length := by simpa using hkp
  have hmz := flatten_arrSlice (ps.map PeakArray.mz) k hkmz
  have habs := flatten_arrSlice (ps.map PeakArray.ab) k hkab
  rw [hmzlen] at hmz
  rw [hablen] at habs
  unfold MassSpecData.get_frame MassSpecData.get_peak_index
  rw [create_index_lookup_mem h hs k hk]
  simp only [Option.pure_def, Option.bind_eq_bind, Option.some_bind,
    List.getElem?_eq_getElem hk2]
  rw [hstart, hstop, hpmz, hpab, hmz, habs]
  simp [List.get_eq_getElem, List.getElem_map]

theorem get_frame_roundtrip_witness :
    exStore.get_frame 12 = some (⟨[150], [10]⟩ : PeakArray) := by
  have h := get_frame_roundtrip exStore_create (by decide)
    (by intro p hp; fin_cases hp <;> rfl) 1 (by decide) (by decide)
  simpa [exMeta, exPeaks] using h

/-- C8: `compute_z_score` changes only the z-score field — run name, frame
index, metadata table and arena are untouched — and is memoized: when the
buffer is already present the call is a no-op, and a second call after a
first is a no-op. (The read operations `get_peak_index`, `get_frame` and
`collect_peaks` are pure functions of the store in this embedding — they
return values and no store — so they modify no field by construction.) -/
theorem compute_z_score_frame (s : MassSpecData) :
    ((s.compute_z_score).run_name = s.run_name ∧
     (s.compute_z_score).frame_num_to_index = s.frame_num_to_index ∧
     (s.compute_z_score).meta_df = s.meta_df ∧
     (s.compute_z_score).peaks = s.peaks) ∧
    (∀ z, s.z_score_arr = some z → s.compute_z_score = s) ∧
    (s.compute_z_score).compute_z_score = s.compute_z_score := by
  cases hz : s.z_score_arr with
  | none =>
    have h1 : s.compute_z_score =
        { s with z_score_arr := some (compute_z_score_cdf s.peaks.ab
            (s.meta_df.map (fun r => (r.peak_start, r.peak_stop)))) } := by
      unfold MassSpecData.compute_z_score
      rw [hz]
    refine ⟨⟨by rw [h1], by rw [h1], by rw [h1], by rw [h1]⟩, ?_, ?_⟩
    · intro z hzz
      simp [hz] at hzz
    · rw [h1]
      unfold MassSpecData.compute_z_score
      rfl
  | some z =>
    have h1 : s.compute_z_score = s := by
      unfold MassSpecData.compute_z_score
      rw [hz]
    refine ⟨⟨by rw [h1], by rw [h1], by rw [h1], by rw [h1]⟩, fun _ _ => h1, by rw [h1, h1]⟩

theorem compute_z_score_frame_witness :
    exStoreZ.compute_z_score = exStoreZ :=
  (compute_z_score_frame exStoreZ).2.1 [0.5] rfl

lemma lookup_filter_self (hf : HdfFile) (key : String) :
    List.lookup key (hf.filter (fun g => g.1 != key)) = none := by
  induction hf with
  | nil => rfl
  | cons p rest ih =>
    rw [List.filter_cons]
    by_cases hpk : p.1 = key
    · simpa [hpk] using ih
    · have hb : (p.1 != key) = true := by simpa [bne_iff_ne] using hpk
      rw [if_pos hb, List.lookup]
      have hkp : (key == p.1) = false := by
        simp [beq_eq_false_iff_ne]
        exact fun he => hpk he.symm
      simp [hkp, ih]

lemma lookup_filter_ne (hf : HdfFile) (key k : String) (hne : k ≠ key) :
    List.lookup k (hf.filter (fun g => g.1 != key)) = List.lookup k hf := by
  induction hf with
  | nil => rfl
  | cons p rest ih =>
    rw [List.filter_cons]
    by_cases hpk : p.1 = key
    · have hb : (p.1 != key) = false := by simp [hpk]
      rw [hb, if_neg (by simp)]
      rw [ih, List.lookup]
      have hkp : (k == p.1) = false := by
        simp [beq_eq_false_iff_ne]
        exact fun he => hne (he.trans hpk)
      simp [hkp]
    · have hb : (p.1 != key) = true := by simpa [bne_iff_ne] using hpk
      rw [if_pos hb, List.lookup, List.lookup]
      cases hkp : (k == p.1) with
      | true => rfl
      | false => exact ih

lemma lookup_append_pair (l : HdfFile) (key : String) (g : HdfGroup) (k : String) :
    List.lookup k (l ++ [(key, g)]) =
      match List.lookup k l with
      | some v => some v
      | none => if key = k then some g else none := by
  induction l with
  | nil =>
    simp only [List.nil_append, List.lookup]
    cases hkk : (k == key) with
    | true =>
      have := beq_iff_eq.mp hkk
      simp [this]
    | false =>
      have hnk : ¬(k = key) := by simpa using hkk
      rw [if_neg (fun h => hnk h.symm)]
  | cons p rest ih =>
    rw [List.cons_append, List.lookup, List.lookup]
    cases hkp : (k == p.1) with
    | true => rfl
    | false => exact ih

/-- C9: for a Store and a container already holding a namespace keyed by
the Store's run identifier, `write_hdf` without `overwrite` fails with the
AlreadyExists error and returns no modified container (the exception
aborts the call before any dataset is written, so the prior data stays
intact); with `overwrite` the prior namespace is deleted and fully
replaced — not merged — by the Store's arena arrays and metadata table,
every other namespace being preserved. -/
theorem write_hdf_collision (s : MassSpecData) (hf : HdfFile)
    (hex : (List.lookup s.run_name hf).isSome = true) :
    s.write_hdf hf false = .error .alreadyExists ∧
    ∃ out, s.write_hdf hf true = .ok out ∧
      List.lookup s.run_name out = some ⟨s.peaks.mz, s.peaks.ab, s.meta_df⟩ ∧
      (∀ k, k ≠ s.run_name → List.lookup k out = List.lookup k hf) := by
  constructor
  · unfold MassSpecData.write_hdf
    rw [if_pos hex]
    rfl
  · refine ⟨(hf.filter (fun g => g.1 != s.run_name)) ++
      [(s.run_name, ⟨s.peaks.mz, s.peaks.ab, s.meta_df⟩)], ?_, ?_, ?_⟩
    · unfold MassSpecData.write_hdf
      rw [if_pos hex]
      rfl
    · rw [lookup_append_pair, lookup_filter_self]
      simp
    · intro k hk
      rw [lookup_append_pair, lookup_filter_ne hf s.run_name k hk]
      cases hl : List.lookup k hf with
      | some v => rfl
      | none => simp [Ne.symm hk]

theorem write_hdf_collision_witness :
    exStoreZ.write_hdf exHdf false = .error .alreadyExists ∧
    ∃ out, exStoreZ.write_hdf exHdf true = .ok out ∧
      List.lookup exStoreZ.run_name out =
        some ⟨exStoreZ.peaks.mz, exStoreZ.peaks.ab, exStoreZ.meta_df⟩ ∧
      (∀ k, k ≠ exStoreZ.run_name → List.lookup k out = List.lookup k exHdf) :=
  write_hdf_collision exStoreZ exHdf rfl

lemma arrSlice_eq_nil_of_le (l : List ℝ) {st ed : ℕ} (h : ed ≤ st) :
    arrSlice l st ed = [] := by
  apply List.drop_eq_nil_of_le
  calc (l.take ed).length ≤ ed := by simp
    _ ≤ st := h

lemma sum_take_le (l : List ℕ) (n : ℕ) : (l.take n).sum ≤ l.sum := by
  conv_rhs => rw [← List.take_append_drop n l]
  rw [List.sum_append]
  omega

lemma flatMap_of_forall₂ {α β γ : Type} {R : α → β → Prop} {q : List α}
    {rows : List β} (hfa : List.Forall₂ R q rows) (g : β → List γ)
    (g2 : α → List γ) (hg : ∀ a b, R a b → g b = g2 a) :
    rows.flatMap g = q.flatMap g2 := by
  induction hfa with
  | nil => rfl
  | cons hR hrest ih =>
    simp only [List.flatMap_cons, ih, hg _ _ hR]

lemma npTake_cons {α : Type} (arr : List α) (f : ℕ) (q : List ℕ) :
    npTake arr (f :: q) =
      (arr[f]?).bind (fun v => (npTake arr q).map (fun vs => v :: vs)) := by
  simp only [npTake, List.mapM_cons]
  cases arr[f]? with
  | none => rfl
  | some v =>
    cases hq : q.mapM (fun i => arr[i]?) with
    | none => simp [Option.bind]
    | some vs => simp [Option.bind]

lemma collect_rows_spec (t : MassSpecData) (q : List ℕ)
    (hq : ∀ f ∈ q, ∃ i row, t.frame_num_to_index[f]? = some i ∧
      t.meta_df[i]? = some row ∧ row.frame_num = f) :
    ∃ idxs rows, npTake t.frame_num_to_index q = some idxs ∧
      npTake t.meta_df idxs = some rows ∧
      List.Forall₂ (fun f row => t.get_peak_index f =
        some (row.peak_start, row.peak_stop) ∧ row.frame_num = f) q rows := by
  induction q with
  | nil => exact ⟨[], [], rfl, rfl, List.Forall₂.nil⟩
  | cons f q ih =>
    obtain ⟨i, row, hi, hrow, hfn⟩ := hq f (by simp)
    obtain ⟨idxs, rows, hidxs, hrows, hfa⟩ := ih (fun g hg => hq g (by simp [hg]))
    refine ⟨i :: idxs, row :: rows, ?_, ?_, ?_⟩
    · rw [npTake_cons, hi, hidxs]
      rfl
    · rw [npTake_cons, hrow, hrows]
      rfl
    · refine List.Forall₂.cons ⟨?_, hfn⟩ hfa
      unfold MassSpecData.get_peak_index
      rw [hi]
      simp [hrow]

/-- Net effect of `collect_peaks` on any store in which each requested
frame resolves to a row carrying its own identifier: the pre-sized fill
loop produces, for each output, the concatenation of the per-request
blocks in request order. -/
lemma collect_peaks_spec (t : MassSpecData) (q : List ℕ)
    (hq : ∀ f ∈ q, ∃ i row, t.frame_num_to_index[f]? = some i ∧
      t.meta_df[i]? = some row ∧ row.frame_num = f) :
    t.collect_peaks q = some
      (q.flatMap (fun f =>
         ((t.get_peak_index f).map (fun r => List.replicate (r.2 - r.1) f)).getD []),
       q.flatMap (fun f =>
         ((t.get_peak_index f).map (fun r => arrSlice t.peaks.mz r.1 r.2)).getD []),
       q.flatMap (fun f =>
         ((t.get_peak_index f).map (fun r => arrSlice t.peaks.ab r.1 r.2)).getD []),
       t.z_score_arr.map (fun z => q.flatMap (fun f =>
         ((t.get_peak_index f).map (fun r => arrSlice z r.1 r.2)).getD []))) := by
  obtain ⟨idxs, rows, hidxs, hrows, hfa⟩ := collect_rows_spec t q hq
  unfold MassSpecData.collect_peaks
  rw [hidxs]
  simp only [Option.pure_def, Option.bind_eq_bind, Option.some_bind]
  rw [hrows]
  simp only [Option.some_bind, Option.some_inj, Prod.mk.injEq]
  have hblock : ∀ (l : List ℝ) f (row : ScanMeta),
      t.get_peak_index f = some (row.peak_start, row.peak_stop) →
      (if row.peak_start < row.peak_stop then
        arrSlice l row.peak_start row.peak_stop else []) =
      ((t.get_peak_index f).map (fun r => arrSlice l r.1 r.2)).getD [] := by
    intro l f row hpi
    rw [hpi]
    by_cases hlt : row.peak_start < row.peak_stop
    · rw [if_pos hlt]
      rfl
    · rw [if_neg hlt, Option.map_some', Option.getD_some,
        arrSlice_eq_nil_of_le l (by omega)]
  refine ⟨?_, ?_, ?_, ?_⟩
  · refine flatMap_of_forall₂ hfa _ _ ?_
    intro f row hR
    rw [hR.1, Option.map_some', Option.getD_some, hR.2]
    by_cases hlt : row.peak_start < row.peak_stop
    · rw [if_pos hlt]
    · rw [if_neg hlt, Nat.sub_eq_zero_of_le (by omega), List.replicate_zero]
  · exact flatMap_of_forall₂ hfa _ _ fun f row hR => hblock _ f row hR.1
  · exact flatMap_of_forall₂ hfa _ _ fun f row hR => hblock _ f row hR.1
  · cases t.z_score_arr with
    | none => rfl
    | some z =>
      simp only [Option.map_some', Option.some_inj]
      exact flatMap_of_forall₂ hfa _ _ fun f row hR => hblock z f row hR.1

lemma flatMap_congr_mem {α γ : Type} {l : List α} {g g2 : α → List γ}
    (h : ∀ a ∈ l, g a = g2 a) : l.flatMap g = l.flatMap g2 := by
  induction l with
  | nil => rfl
  | cons x xs ih =>
    simp only [List.flatMap_cons, h x (by simp), ih fun a ha => h a (by simp [ha])]

lemma map_congr_mem {α γ : Type} {l : List α} {g g2 : α → γ}
    (h : ∀ a ∈ l, g a = g2 a) : l.map g = l.map g2 :=
  List.map_congr_left h

lemma arrSlice_length (l : List ℝ) {st ed : ℕ} (hed : ed ≤ l.length) :
    (arrSlice l st ed).length = ed - st := by
  simp only [arrSlice, List.length_drop, List.length_take]
  omega

lemma compute_z_score_cdf_length (ab_arr : List ℝ) (rs : List (ℕ × ℕ)) :
    (compute_z_score_cdf ab_arr rs).length = ab_arr.length := by
  simp [compute_z_score_cdf]

lemma create_present_row {run : String} {meta : List ScanMetaBase}
    {ps : List PeakArray} {s : MassSpecData}
    (h : MassSpecData.create run meta ps = .ok s)
    (hs : List.Sorted (· < ·) (meta.map ScanMetaBase.frame_num))
    (hab : ∀ p ∈ ps, p.ab.length = p.mz.length)
    {f : ℕ} (hf : f ∈ meta.map ScanMetaBase.frame_num) :
    ∃ i row, s.frame_num_to_index[f]? = some i ∧ s.meta_df[i]? = some row ∧
      row.frame_num = f ∧ row.peak_start ≤ row.peak_stop ∧
      row.peak_stop ≤ s.peaks.mz.length ∧ row.peak_stop ≤ s.peaks.ab.length := by
  obtain ⟨k, hk, hfk⟩ := List.mem_iff_getElem.mp hf
  have hkm : k < meta.length := by simpa using hk
  have hlen : meta.length = ps.length := (create_ok_inv h).1
  have hk2 : k < s.meta_df.length := by
    rw [create_meta_length h]
    omega
  obtain ⟨hbase, hstart, hstop⟩ := create_meta_row h k hk2 hkm
  have hgf : (meta.get ⟨k, hkm⟩).frame_num = f := by
    rw [List.get_eq_getElem, ← hfk, List.getElem_map]
  have hcl : k < (ps.map PeakArray.len).length := by
    simp only [List.length_map]
    omega
  refine ⟨k, s.meta_df[k], ?_, List.getElem?_eq_getElem hk2, ?_, ?_, ?_, ?_⟩
  · rw [← hgf]
    exact create_index_lookup_mem h hs k hkm
  · have hfr : (s.meta_df[k]).frame_num = (meta[k]).frame_num :=
      congrArg ScanMetaBase.frame_num hbase
    rw [hfr, ← hfk, List.getElem_map]
  · rw [hstart, hstop, List.sum_take_succ _ k hcl]
    omega
  · rw [hstop]
    obtain ⟨-, -, idx, -, hsEq⟩ := create_ok_inv h
    have hml : s.peaks.mz.length = (ps.map PeakArray.len).sum := by
      rw [hsEq]
      simp only [List.length_flatten, List.map_map]
      rfl
    rw [hml]
    exact sum_take_le _ _
  · rw [hstop]
    obtain ⟨-, -, idx, -, hsEq⟩ := create_ok_inv h
    have hml : s.peaks.ab.length = (ps.map PeakArray.len).sum := by
      rw [hsEq]
      simp only [List.length_flatten, List.map_map]
      exact congrArg List.sum (List.map_congr_left fun p hp => hab p hp)
    rw [hml]
    exact sum_take_le _ _

lemma create_present_frame_eq {run : String} {meta : List ScanMetaBase}
    {ps : List PeakArray} {s : MassSpecData}
    (h : MassSpecData.create run meta ps = .ok s)
    (hs : List.Sorted (· < ·) (meta.map ScanMetaBase.frame_num))
    (hab : ∀ p ∈ ps, p.ab.length = p.mz.length)
    {f : ℕ} (hf : f ∈ meta.map ScanMetaBase.frame_num) :
    ∃ st ed, s.get_peak_index f = some (st, ed) ∧ st ≤ ed ∧
      ed ≤ s.peaks.mz.length ∧ ed ≤ s.peaks.ab.length ∧
      s.get_frame f = some ⟨arrSlice s.peaks.mz st ed, arrSlice s.peaks.ab st ed⟩ := by
  obtain ⟨i, row, hi, hrow, hfn, hle, hmzb, habb⟩ := create_present_row h hs hab hf
  have hpi : s.get_peak_index f = some (row.peak_start, row.peak_stop) := by
    unfold MassSpecData.get_peak_index
    rw [hi]
    simp [hrow]
  refine ⟨row.peak_start, row.peak_stop, hpi, hle, hmzb, habb, ?_⟩
  unfold MassSpecData.get_frame
  rw [hpi]
  rfl

/-- On a store agreeing with `s` on index, table and arena but carrying a
computed z-score buffer, `collect_peaks` emits the parallel z output. -/
lemma collect_peaks_spec_z {s t : MassSpecData}
    (hfn : t.frame_num_to_index = s.frame_num_to_index)
    (hmd : t.meta_df = s.meta_df) (hpk : t.peaks = s.peaks)
    {zb : List ℝ} (hzb : t.z_score_arr = some zb) (q : List ℕ)
    (hq2 : ∀ f ∈ q, ∃ i row, s.frame_num_to_index[f]? = some i ∧
      s.meta_df[i]? = some row ∧ row.frame_num = f) :
    t.collect_peaks q = some
      (q.flatMap (fun f =>
         ((s.get_peak_index f).map (fun r => List.replicate (r.2 - r.1) f)).getD []),
       q.flatMap (fun f =>
         ((s.get_peak_index f).map (fun r => arrSlice s.peaks.mz r.1 r.2)).getD []),
       q.flatMap (fun f =>
         ((s.get_peak_index f).map (fun r => arrSlice s.peaks.ab r.1 r.2)).getD []),
       some (q.flatMap (fun f =>
         ((s.get_peak_index f).map (fun r => arrSlice zb r.1 r.2)).getD []))) := by
  have hpi_eq : t.get_peak_index = s.get_peak_index := by
    funext f
    unfold MassSpecData.get_peak_index
    rw [hfn, hmd]
  have hcolt := collect_peaks_spec t q (by rw [hfn, hmd]; exact hq2)
  rw [hpi_eq, hpk, hzb] at hcolt
  simpa only [Option.map_some'] using hcolt

/-- C4: on a Store built by `create` (data-model hypotheses as in C3), for
every request list of present identifiers (duplicates permitted),
`collect_peaks` returns the concatenation, in request order, of each
requested scan's block — scan-identifier column filled with the
originating identifier, `mz` and `ab` blocks equal to `get_frame` of that
identifier — with common output length the sum of the requested scans'
peak counts; the z-score output is absent (`none`), not zero-filled, when
the buffer has not been computed, and after `compute_z_score` it is
present with the corresponding z-score slices and the same length. -/
theorem collect_peaks_gather {run : String} {meta : List ScanMetaBase}
    {ps : List PeakArray} {s : MassSpecData}
    (h : MassSpecData.create run meta ps = .ok s)
    (hs : List.Sorted (· < ·) (meta.map ScanMetaBase.frame_num))
    (hab : ∀ p ∈ ps, p.ab.length = p.mz.length)
    (q : List ℕ) (hq : ∀ f ∈ q, f ∈ meta.map ScanMetaBase.frame_num) :
    s.collect_peaks q = some
      (q.flatMap (fun f =>
         ((s.get_frame f).map (fun pa => List.replicate pa.len f)).getD []),
       q.flatMap (fun f => ((s.get_frame f).map PeakArray.mz).getD []),
       q.flatMap (fun f => ((s.get_frame f).map PeakArray.ab).getD []),
       none) ∧
    (∃ zb, (s.compute_z_score).z_score_arr = some zb ∧
      (s.compute_z_score).collect_peaks q = some
        (q.flatMap (fun f =>
           ((s.get_frame f).map (fun pa => List.replicate pa.len f)).getD []),
         q.flatMap (fun f => ((s.get_frame f).map PeakArray.mz).getD []),
         q.flatMap (fun f => ((s.get_frame f).map PeakArray.ab).getD []),
         some (q.flatMap (fun f =>
           ((s.get_peak_index f).map (fun r => arrSlice zb r.1 r.2)).getD []))) ∧
      (q.flatMap (fun f =>
        ((s.get_peak_index f).map (fun r => arrSlice zb r.1 r.2)).getD [])).length =
        (q.map (fun f => ((s.get_frame f).map PeakArray.len).getD 0)).sum) ∧
    (q.flatMap (fun f =>
      ((s.get_frame f).map (fun pa => List.replicate pa.len f)).getD [])).length =
      (q.map (fun f => ((s.get_frame f).map PeakArray.len).getD 0)).sum ∧
    (q.flatMap (fun f => ((s.get_frame f).map PeakArray.mz).getD [])).length =
      (q.map (fun f => ((s.get_frame f).map PeakArray.len).getD 0)).sum ∧
    (q.flatMap (fun f => ((s.get_frame f).map PeakArray.ab).getD [])).length =
      (q.map (fun f => ((s.get_frame f).map PeakArray.len).getD 0)).sum := by
  have hz0 : s.z_score_arr = none := by
    obtain ⟨-, -, idx, -, hsEq⟩ := create_ok_inv h
    rw [hsEq]
  have hq2 : ∀ f ∈ q, ∃ i row, s.frame_num_to_index[f]? = some i ∧
      s.meta_df[i]? = some row ∧ row.frame_num = f := by
    intro f hfq
    obtain ⟨i, row, hi, hrow, hfn, -⟩ := create_present_row h hs hab (hq f hfq)
    exact ⟨i, row, hi, hrow, hfn⟩
  have hBn : ∀ f ∈ q,
      ((s.get_peak_index f).map (fun r => List.replicate (r.2 - r.1) f)).getD [] =
      ((s.get_frame f).map (fun pa => List.replicate pa.len f)).getD [] := by
    intro f hfq
    obtain ⟨st, ed, hpi, -, hmzb, -, hgf⟩ :=
      create_present_frame_eq h hs hab (hq f hfq)
    rw [hpi, hgf]
    simp only [Option.map_some', Option.getD_some]
    congr 1
    exact (arrSlice_length s.peaks.mz hmzb).symm
  have hBmz : ∀ f ∈ q,
      ((s.get_peak_index f).map (fun r => arrSlice s.peaks.mz r.1 r.2)).getD [] =
      ((s.get_frame f).map PeakArray.mz).getD [] := by
    intro f hfq
    obtain ⟨st, ed, hpi, -, -, -, hgf⟩ :=
      create_present_frame_eq h hs hab (hq f hfq)
    rw [hpi, hgf]
    simp only [Option.map_some', Option.getD_some]
  have hBab : ∀ f ∈ q,
      ((s.get_peak_index f).map (fun r => arrSlice s.peaks.ab r.1 r.2)).getD [] =
      ((s.get_frame f).map PeakArray.ab).getD [] := by
    intro f hfq
    obtain ⟨st, ed, hpi, -, -, -, hgf⟩ :=
      create_present_frame_eq h hs hab (hq f hfq)
    rw [hpi, hgf]
    simp only [Option.map_some', Option.getD_some]
  have hcol := collect_peaks_spec s q hq2
  rw [flatMap_congr_mem hBn, flatMap_congr_mem hBmz, flatMap_congr_mem hBab,
    hz0] at hcol
  have hLn : (q.flatMap (fun f =>
      ((s.get_frame f).map (fun pa => List.replicate pa.len f)).getD [])).length =
      (q.map (fun f => ((s.get_frame f).map PeakArray.len).getD 0)).sum := by
    rw [List.length_flatMap]
    refine congrArg List.sum (map_congr_mem ?_)
    intro f hfq
    obtain ⟨st, ed, hpi, -, hmzb, -, hgf⟩ :=
      create_present_frame_eq h hs hab (hq f hfq)
    simp only [Function.comp_apply]
    rw [hgf]
    simp only [Option.map_some', Option.getD_some, List.length_replicate]
  have hLmz : (q.flatMap (fun f =>
      ((s.get_frame f).map PeakArray.mz).getD [])).length =
      (q.map (fun f => ((s.get_frame f).map PeakArray.len).getD 0)).sum := by
    rw [List.length_flatMap]
    refine congrArg List.sum (map_congr_mem ?_)
    intro f hfq
    obtain ⟨st, ed, hpi, -, hmzb, -, hgf⟩ :=
      create_present_frame_eq h hs hab (hq f hfq)
    simp only [Function.comp_apply]
    rw [hgf]
    simp only [Option.map_some', Option.getD_some]
    rfl
  have hLab : (q.flatMap (fun f =>
      ((s.get_frame f).map PeakArray.ab).getD [])).length =
      (q.map (fun f => ((s.get_frame f).map PeakArray.len).getD 0)).sum := by
    rw [List.length_flatMap]
    refine congrArg List.sum (map_congr_mem ?_)
    intro f hfq
    obtain ⟨st, ed, hpi, -, hmzb, habb, hgf⟩ :=
      create_present_frame_eq h hs hab (hq f hfq)
    simp only [Function.comp_apply]
    rw [hgf]
    simp only [Option.map_some', Option.getD_some]
    rw [arrSlice_length s.peaks.ab habb]
    exact (arrSlice_length s.peaks.mz hmzb).symm
  refine ⟨hcol, ?_, hLn, hLmz, hLab⟩
  have ht : s.compute_z_score =
      ⟨s.run_name, s.frame_num_to_index, s.meta_df, s.peaks,
        some (compute_z_score_cdf s.peaks.ab
          (s.meta_df.map (fun r => (r.peak_start, r.peak_stop))))⟩ := by
    unfold MassSpecData.compute_z_score
    rw [hz0]
  refine ⟨compute_z_score_cdf s.peaks.ab
      (s.meta_df.map (fun r => (r.peak_start, r.peak_stop))),
    by rw [ht], ?_, ?_⟩
  · have hcolt := collect_peaks_spec_z (t := s.compute_z_score)
      (by rw [ht]) (by rw [ht]) (by rw [ht]) (by rw [ht]) q hq2
    rw [flatMap_congr_mem hBn, flatMap_congr_mem hBmz, flatMap_congr_mem hBab]
      at hcolt
    exact hcolt
  · rw [List.length_flatMap]
    refine congrArg List.sum (map_congr_mem ?_)
    intro f hfq
    obtain ⟨st, ed, hpi, -, hmzb, habb, hgf⟩ :=
      create_present_frame_eq h hs hab (hq f hfq)
    simp only [Function.comp_apply]
    rw [hpi, hgf]
    simp only [Option.map_some', Option.getD_some]
    rw [arrSlice_length _ (by rw [compute_z_score_cdf_length]; exact habb)]
    exact (arrSlice_length s.peaks.mz hmzb).symm

theorem collect_peaks_gather_witness :
    exStore.collect_peaks [12, 10, 12] =
      some ([12, 10, 10, 12], [150, 100, 200, 150], [10, 5, 5, 10], none) :=
  ((collect_peaks_gather exStore_create (by decide)
    (by intro p hp; fin_cases hp <;> rfl) [12, 10, 12] (by decide)).1).trans (by rfl)

lemma integral_exp_neg_sq_nonneg {x : ℝ} (hx : 0 ≤ x) :
    0 ≤ ∫ t in (0:ℝ)..x, Real.exp (-(t ^ 2)) :=
  intervalIntegral.integral_nonneg hx (fun _ _ => Real.exp_nonneg _)

lemma integral_exp_neg_sq_le {x : ℝ} (hx : 0 ≤ x) :
    ∫ t in (0:ℝ)..x, Real.exp (-(t ^ 2)) ≤ Real.sqrt Real.pi / 2 := by
  have hint : MeasureTheory.IntegrableOn (fun t => Real.exp (-(t ^ 2)))
      (Set.Ioi (0:ℝ)) := by
    have h0 : MeasureTheory.Integrable (fun t : ℝ => Real.exp (-1 * t ^ 2)) :=
      integrable_exp_neg_mul_sq (by norm_num)
    have h1 : MeasureTheory.IntegrableOn (fun t : ℝ => Real.exp (-1 * t ^ 2))
        (Set.Ioi (0:ℝ)) := h0.integrableOn
    simpa [neg_one_mul] using h1
  rw [intervalIntegral.integral_of_le hx]
  have h2 : ∫ t in Set.Ioc (0:ℝ) x, Real.exp (-(t ^ 2)) ≤
      ∫ t in Set.Ioi (0:ℝ), Real.exp (-(t ^ 2)) := by
    apply MeasureTheory.setIntegral_mono_set hint
    · filter_upwards with t using Real.exp_nonneg _
    · exact HasSubset.Subset.eventuallyLE Set.Ioc_subset_Ioi_self
  have h3 : ∫ t in Set.Ioi (0:ℝ), Real.exp (-(t ^ 2)) = Real.sqrt Real.pi / 2 := by
    have := integral_gaussian_Ioi 1
    simpa [neg_one_mul] using this
  linarith

lemma integral_exp_neg_sq_neg (x : ℝ) :
    ∫ t in (0:ℝ)..(-x), Real.exp (-(t ^ 2)) =
      -∫ t in (0:ℝ)..x, Real.exp (-(t ^ 2)) := by
  have hcomp : (∫ t in (0:ℝ)..x, Real.exp (-((-t) ^ 2))) =
      ∫ t in (-x)..(-(0:ℝ)), Real.exp (-(t ^ 2)) :=
    intervalIntegral.integral_comp_neg (fun t => Real.exp (-(t ^ 2)))
  simp only [neg_sq, neg_zero] at hcomp
  rw [intervalIntegral.integral_symm (-x) 0, hcomp]

lemma erf_neg (x : ℝ) : erf (-x) = -erf x := by
  unfold erf
  rw [integral_exp_neg_sq_neg]
  ring

lemma erf_bounds (x : ℝ) : -1 ≤ erf x ∧ erf x ≤ 1 := by
  have hpi : 0 < Real.sqrt Real.pi := Real.sqrt_pos.mpr Real.pi_pos
  have key : ∀ y : ℝ, 0 ≤ y → 0 ≤ erf y ∧ erf y ≤ 1 := by
    intro y hy
    constructor
    · exact mul_nonneg (by positivity) (integral_exp_neg_sq_nonneg hy)
    · have hle := integral_exp_neg_sq_le hy
      have hone : (2 / Real.sqrt Real.pi) * (Real.sqrt Real.pi / 2) = 1 := by
        field_simp
      calc erf y ≤ (2 / Real.sqrt Real.pi) * (Real.sqrt Real.pi / 2) := by
            unfold erf
            apply mul_le_mul_of_nonneg_left hle (by positivity)
        _ = 1 := hone
  rcases le_or_lt 0 x with hx | hx
  · have hk := key x hx
    constructor <;> linarith [hk.1, hk.2]
  · have hx2 : 0 ≤ -x := by linarith
    have hk := key (-x) hx2
    have he : erf x = -erf (-x) := by
      rw [erf_neg]
      ring
    rw [he]
    constructor <;> linarith [hk.1, hk.2]

lemma norm_cdf_mem (z : ℝ) : 0 ≤ norm_cdf z ∧ norm_cdf z ≤ 1 := by
  obtain ⟨h1, h2⟩ := erf_bounds (z / Real.sqrt 2)
  unfold norm_cdf
  constructor <;> nlinarith

open Classical in
lemma zScoreStep_apply (ab_arr : List ℝ) (g : ℕ → ℝ) (r : ℕ × ℕ) (j : ℕ) :
    zScoreStep ab_arr g r j =
      if r.1 < r.2 ∧ 0 < rangeQ ab_arr r 0.75 - rangeQ ab_arr r 0.25 ∧
          r.1 ≤ j ∧ j < r.2 then
        norm_cdf ((ab_arr.getD j 0 - rangeQ ab_arr r 0.5) *
          (1 / (rangeQ ab_arr r 0.75 - rangeQ ab_arr r 0.25)))
      else g j := by
  unfold zScoreStep rangeQ
  by_cases h1 : r.1 < r.2
  · simp only [if_pos h1]
    by_cases h2 : 0 < npQuantile (arrSlice ab_arr r.1 r.2) 0.75 -
        npQuantile (arrSlice ab_arr r.1 r.2) 0.25
    · simp only [if_pos h2]
      by_cases h3 : r.1 ≤ j ∧ j < r.2
      · rw [if_pos h3, if_pos ⟨h1, h2, h3.1, h3.2⟩]
      · rw [if_neg h3, if_neg (fun hC => h3 ⟨hC.2.2.1, hC.2.2.2⟩)]
    · simp only [if_neg h2]
      rw [if_neg (fun hC => h2 hC.2.1)]
  · simp only [if_neg h1]
    rw [if_neg (fun hC => h1 hC.1)]

lemma foldl_zScoreStep_notin (ab_arr : List ℝ) (rs : List (ℕ × ℕ))
    (g : ℕ → ℝ) (j : ℕ) (hj : ∀ r ∈ rs, ¬(r.1 ≤ j ∧ j < r.2)) :
    rs.foldl (zScoreStep ab_arr) g j = g j := by
  induction rs generalizing g with
  | nil => rfl
  | cons r rest ih =>
    rw [List.foldl_cons, ih _ (fun r2 h2 => hj r2 (by simp [h2])),
      zScoreStep_apply,
      if_neg (fun hC => hj r (by simp) ⟨hC.2.2.1, hC.2.2.2⟩)]

lemma foldl_zScoreStep_mem (ab_arr : List ℝ) (r : ℕ × ℕ) (j : ℕ)
    (hj1 : r.1 ≤ j) (hj2 : j < r.2) :
    ∀ (rs : List (ℕ × ℕ)) (g : ℕ → ℝ), r ∈ rs →
      List.Pairwise RangeDisj rs →
    (0 < rangeQ ab_arr r 0.75 - rangeQ ab_arr r 0.25 →
      rs.foldl (zScoreStep ab_arr) g j =
        norm_cdf ((ab_arr.getD j 0 - rangeQ ab_arr r 0.5) *
          (1 / (rangeQ ab_arr r 0.75 - rangeQ ab_arr r 0.25)))) ∧
    (¬ 0 < rangeQ ab_arr r 0.75 - rangeQ ab_arr r 0.25 →
      rs.foldl (zScoreStep ab_arr) g j = g j) := by
  intro rs
  induction rs with
  | nil =>
    intro g hr
    simp at hr
  | cons r0 rest ih =>
    intro g hr hdisj
    obtain ⟨hhead, htail⟩ := List.pairwise_cons.mp hdisj
    rcases List.mem_cons.mp hr with rfl | hmem
    · have hpres : rest.foldl (zScoreStep ab_arr) (zScoreStep ab_arr g r) j =
          zScoreStep ab_arr g r j :=
        foldl_zScoreStep_notin _ _ _ _ (fun r2 h2 => hhead r2 h2 j hj1 hj2)
      rw [List.foldl_cons, hpres, zScoreStep_apply]
      constructor
      · intro hiqr
        rw [if_pos ⟨lt_of_le_of_lt hj1 hj2, hiqr, hj1, hj2⟩]
      · intro hiqr
        rw [if_neg (fun hC => hiqr hC.2.1)]
    · have hjr0 : ¬(r0.1 ≤ j ∧ j < r0.2) := by
        intro hj0
        exact hhead r hmem j hj0.1 hj0.2 ⟨hj1, hj2⟩
      have ihr := ih (zScoreStep ab_arr g r0) hmem htail
      rw [List.foldl_cons]
      refine ⟨ihr.1, ?_⟩
      intro hiqr
      rw [ihr.2 hiqr, zScoreStep_apply,
        if_neg (fun hC => hjr0 ⟨hC.2.2.1, hC.2.2.2⟩)]

lemma foldl_zScoreStep_unit (ab_arr : List ℝ) (rs : List (ℕ × ℕ)) :
    ∀ (g : ℕ → ℝ), (∀ j, 0 ≤ g j ∧ g j ≤ 1) →
    ∀ j, 0 ≤ rs.foldl (zScoreStep ab_arr) g j ∧
      rs.foldl (zScoreStep ab_arr) g j ≤ 1 := by
  induction rs with
  | nil =>
    intro g hg j
    exact hg j
  | cons r0 rest ih =>
    intro g hg j
    rw [List.foldl_cons]
    refine ih _ ?_ j
    intro j2
    rw [zScoreStep_apply]
    split
    · exact norm_cdf_mem _
    · exact hg j2

lemma compute_z_score_cdf_getD (ab_arr : List ℝ) (rs : List (ℕ × ℕ))
    (j : ℕ) (hj : j < ab_arr.length) :
    (compute_z_score_cdf ab_arr rs).getD j 0 =
      rs.foldl (zScoreStep ab_arr) (fun _ => 0.5) j := by
  unfold compute_z_score_cdf
  rw [List.getD_eq_getElem?_getD, List.getElem?_ofFn]
  simp [List.ofFnNthVal, hj]

/-- C5: the statistics kernel returns a buffer of the length of the
intensity array in which, for every scan range `[start, stop)` (ranges
disjoint and in bounds, as the arena invariant guarantees): when the
interquartile range `q3 - q1` of the range's intensities is positive,
every position `j` of the range holds
`Phi((ab[j] - q2) / iqr)` with `Phi(z) = 0.5 * (1 + erf (z / sqrt 2))`;
otherwise (including the vacuous empty range) every position of the range
keeps the neutral default `0.5`; and every value of the buffer lies in
`[0, 1]`. -/
theorem compute_z_score_cdf_contract (ab_arr : List ℝ)
    (peak_range_arr : List (ℕ × ℕ))
    (hdisj : List.Pairwise RangeDisj peak_range_arr)
    (hbnd : ∀ r ∈ peak_range_arr, r.2 ≤ ab_arr.length) :
    (compute_z_score_cdf ab_arr peak_range_arr).length = ab_arr.length ∧
    (∀ r ∈ peak_range_arr, ∀ j, r.1 ≤ j → j < r.2 →
      (0 < rangeQ ab_arr r 0.75 - rangeQ ab_arr r 0.25 →
        (compute_z_score_cdf ab_arr peak_range_arr).getD j 0 =
          norm_cdf ((ab_arr.getD j 0 - rangeQ ab_arr r 0.5) /
            (rangeQ ab_arr r 0.75 - rangeQ ab_arr r 0.25))) ∧
      (rangeQ ab_arr r 0.75 - rangeQ ab_arr r 0.25 ≤ 0 →
        (compute_z_score_cdf ab_arr peak_range_arr).getD j 0 = 0.5)) ∧
    (∀ v ∈ compute_z_score_cdf ab_arr peak_range_arr, 0 ≤ v ∧ v ≤ 1) := by
  refine ⟨compute_z_score_cdf_length _ _, ?_, ?_⟩
  · intro r hr j hj1 hj2
    have hjlen : j < ab_arr.length := lt_of_lt_of_le hj2 (hbnd r hr)
    have hm := foldl_zScoreStep_mem ab_arr r j hj1 hj2 peak_range_arr
      (fun _ => 0.5) hr hdisj
    constructor
    · intro hiqr
      rw [compute_z_score_cdf_getD _ _ _ hjlen, hm.1 hiqr, mul_one_div]
    · intro hiqr
      rw [compute_z_score_cdf_getD _ _ _ hjlen, hm.2 (not_lt.mpr hiqr)]
  · intro v hv
    unfold compute_z_score_cdf at hv
    rw [List.mem_ofFn] at hv
    obtain ⟨k, hk⟩ := hv
    rw [← hk]
    exact foldl_zScoreStep_unit ab_arr peak_range_arr
      (fun _ => 0.5) (fun j2 => by norm_num) k.1

theorem compute_z_score_cdf_contract_witness :
    (compute_z_score_cdf [5, 5] [(0, 2)]).length = ([5, 5] : List ℝ).length ∧
    (∀ r ∈ [((0 : ℕ), (2 : ℕ))], ∀ j, r.1 ≤ j → j < r.2 →
      (0 < rangeQ [5, 5] r 0.75 - rangeQ [5, 5] r 0.25 →
        (compute_z_score_cdf [5, 5] [(0, 2)]).getD j 0 =
          norm_cdf ((List.getD [5, 5] j 0 - rangeQ [5, 5] r 0.5) /
            (rangeQ [5, 5] r 0.75 - rangeQ [5, 5] r 0.25))) ∧
      (rangeQ [5, 5] r 0.75 - rangeQ [5, 5] r 0.25 ≤ 0 →
        (compute_z_score_cdf [5, 5] [(0, 2)]).getD j 0 = 0.5)) ∧
    (∀ v ∈ compute_z_score_cdf [5, 5] [(0, 2)], 0 ≤ v ∧ v ≤ 1) :=
  compute_z_score_cdf_contract [5, 5] [(0, 2)] (by simp) (by simp)

end PyMS
